import Mathlib

set_option linter.unusedVariables false

/-!
Verification of the SQLAlchemy consumer-idempotency claim manager.

The development shallowly embeds the repository's core:
  - `get_lock_key_for_event` (src/event_claim_manager/event_claim_manager.py):
    first 8 bytes of SHA-256 of the UTF-8 encoded event id, read as a signed
    big-endian 64-bit integer.  SHA-256 is implemented in full over `Nat`.
  - the `consumer_processed_events` table (src/event_claim_manager/table.py):
    an association list from event id to a row holding status / created_at /
    updated_at; timestamps are modelled as abstract `Nat` clock values.
  - `try_claim_event` / `mark_as_completed`: statements executed inside an
    open transaction.  A transaction's uncommitted statements are kept as a
    pending list and replayed against the committed table at commit time,
    reads see the committed table overlaid with the transaction's own pending
    statements (read-your-own-writes, READ COMMITTED), and advisory locks are
    global, transaction-scoped, and released on commit or rollback, matching
    pg_try_advisory_xact_lock.
  - `SQLAlchemyUnitOfWork.__aexit__` (src/event_claim_manager/unit_of_work.py):
    a pure control-flow model of commit-on-success / rollback-on-error and of
    error propagation.
-/

/-! SHA-256 over `Nat`, big-endian byte lists.  Words are `Nat` values kept
below 2^32 by explicit reduction `w32`. -/

def w32 (n : Nat) : Nat := n % 4294967296

def rotr32 (x n : Nat) : Nat := (x % 2 ^ n) * 2 ^ (32 - n) + x / 2 ^ n

def not32 (x : Nat) : Nat := Nat.xor x 4294967295

def shaCh (x y z : Nat) : Nat := Nat.xor (Nat.land x y) (Nat.land (not32 x) z)

def shaMaj (x y z : Nat) : Nat :=
  Nat.xor (Nat.xor (Nat.land x y) (Nat.land x z)) (Nat.land y z)

def bigSigma0 (x : Nat) : Nat := Nat.xor (Nat.xor (rotr32 x 2) (rotr32 x 13)) (rotr32 x 22)

def bigSigma1 (x : Nat) : Nat := Nat.xor (Nat.xor (rotr32 x 6) (rotr32 x 11)) (rotr32 x 25)

def smallSigma0 (x : Nat) : Nat := Nat.xor (Nat.xor (rotr32 x 7) (rotr32 x 18)) (x / 2 ^ 3)

def smallSigma1 (x : Nat) : Nat := Nat.xor (Nat.xor (rotr32 x 17) (rotr32 x 19)) (x / 2 ^ 10)

def shaK : List Nat :=
  [1116352408, 1899447441, 3049323471, 3921009573, 961987163,
   1508970993, 2453635748, 2870763221, 3624381080, 310598401,
   607225278, 1426881987, 1925078388, 2162078206, 2614888103,
   3248222580, 3835390401, 4022224774, 264347078, 604807628,
   770255983, 1249150122, 1555081692, 1996064986, 2554220882,
   2821834349, 2952996808, 3210313671, 3336571891, 3584528711,
   113926993, 338241895, 666307205, 773529912, 1294757372,
   1396182291, 1695183700, 1986661051, 2177026350, 2456956037,
   2730485921, 2820302411, 3259730800, 3345764771, 3516065817,
   3600352804, 4094571909, 275423344, 430227734, 506948616,
   659060556, 883997877, 958139571, 1322822218, 1537002063,
   1747873779, 1955562222, 2024104815, 2227730452, 2361852424,
   2428436474, 2756734187, 3204031479, 3329325298]

structure ShaState where
  a : Nat
  b : Nat
  c : Nat
  d : Nat
  e : Nat
  f : Nat
  g : Nat
  h : Nat
deriving DecidableEq, Repr

def shaH0 : ShaState :=
  ⟨1779033703, 3144134277, 1013904242, 2773480762, 1359893119, 2600822924, 528734635, 1541459225⟩

def natToBytesBE : Nat → Nat → List Nat
  | 0, _ => []
  | k + 1, n => natToBytesBE k (n / 256) ++ [n % 256]

def bytesToWords : List Nat → List Nat
  | b0 :: b1 :: b2 :: b3 :: rest =>
    (((b0 * 256 + b1) * 256 + b2) * 256 + b3) :: bytesToWords rest
  | _ => []

def padMessage (bs : List Nat) : List Nat :=
  let len := bs.length
  let zeros := (119 - len % 64) % 64
  bs ++ [128] ++ List.replicate zeros 0 ++ natToBytesBE 8 (8 * len)

def chunks64Aux : Nat → List Nat → List (List Nat)
  | 0, _ => []
  | _, [] => []
  | fuel + 1, x :: rest => ((x :: rest).take 64) :: chunks64Aux fuel ((x :: rest).drop 64)

def chunks64 (l : List Nat) : List (List Nat) := chunks64Aux l.length l

def schedStep (prev : List Nat) : List Nat :=
  let n := prev.length
  prev ++ [w32 (smallSigma1 (prev.getD (n - 2) 0) + prev.getD (n - 7) 0 +
                smallSigma0 (prev.getD (n - 15) 0) + prev.getD (n - 16) 0)]

def extendSched : Nat → List Nat → List Nat
  | 0, ws => ws
  | k + 1, ws => extendSched k (schedStep ws)

def shaRound (st : ShaState) (kw : Nat × Nat) : ShaState :=
  let t1 := w32 (st.h + bigSigma1 st.e + shaCh st.e st.f st.g + kw.1 + kw.2)
  let t2 := w32 (bigSigma0 st.a + shaMaj st.a st.b st.c)
  ⟨w32 (t1 + t2), st.a, st.b, st.c, w32 (st.d + t1), st.e, st.f, st.g⟩

def compressChunk (st : ShaState) (chunk : List Nat) : ShaState :=
  let ws := extendSched 48 (bytesToWords chunk)
  let r := (shaK.zip ws).foldl shaRound st
  ⟨w32 (st.a + r.a), w32 (st.b + r.b), w32 (st.c + r.c), w32 (st.d + r.d),
   w32 (st.e + r.e), w32 (st.f + r.f), w32 (st.g + r.g), w32 (st.h + r.h)⟩

def sha256 (bs : List Nat) : List Nat :=
  let final := (chunks64 (padMessage bs)).foldl compressChunk shaH0
  natToBytesBE 4 final.a ++ natToBytesBE 4 final.b ++ natToBytesBE 4 final.c ++
  natToBytesBE 4 final.d ++ natToBytesBE 4 final.e ++ natToBytesBE 4 final.f ++
  natToBytesBE 4 final.g ++ natToBytesBE 4 final.h

/-- UTF-8 encoding of one Unicode scalar value, as Python str.encode does. -/
def utf8EncodeChar (c : Nat) : List Nat :=
  if c < 128 then [c]
  else if c < 2048 then [192 + c / 64, 128 + c % 64]
  else if c < 65536 then [224 + c / 4096, 128 + c / 64 % 64, 128 + c % 64]
  else [240 + c / 262144, 128 + c / 4096 % 64, 128 + c / 64 % 64, 128 + c % 64]

def utf8Encode (s : String) : List Nat :=
  s.data.foldr (fun c acc => utf8EncodeChar c.toNat ++ acc) []

def bytesToNatBE (bs : List Nat) : Nat := bs.foldl (fun acc b => acc * 256 + b) 0

/-- Python int.from_bytes with signed=True and big-endian byte order. -/
def intFromBytesSigned (bs : List Nat) : Int :=
  let u := bytesToNatBE bs
  if u < 2 ^ (8 * bs.length - 1) then (u : Int) else (u : Int) - 2 ^ (8 * bs.length)

/-- SQLAlchemyEventClaimManager._get_lock_key_for_event: signed 64-bit key from
the first 8 bytes of the SHA-256 digest of the event id. -/
def get_lock_key_for_event (event_id : String) : Int :=
  intFromBytesSigned ((sha256 (utf8Encode event_id)).take 8)

/-! The event status store and the transactional state machine. -/

inductive ProcessingStatus where
  | PROCESSING
  | COMPLETED
deriving DecidableEq, Repr

/-- One row of the consumer_processed_events table (src/event_claim_manager/table.py). -/
structure Row where
  status : ProcessingStatus
  created_at : Nat
  updated_at : Nat
deriving DecidableEq, Repr

abbrev Table := List (String × Row)

/-- First-match association-list lookup. -/
def tlookup {κ ν : Type} [DecidableEq κ] : List (κ × ν) → κ → Option ν
  | [], _ => none
  | p :: ps, k => if p.1 = k then some p.2 else tlookup ps k

/-- Replace the binding of a key, or append it if absent. -/
def tset {κ ν : Type} [DecidableEq κ] : List (κ × ν) → κ → ν → List (κ × ν)
  | [], k, v => [(k, v)]
  | p :: ps, k, v => if p.1 = k then (k, v) :: ps else p :: tset ps k v

/-- A write statement issued inside a transaction. -/
inductive Op where
  | insertProcessing (event_id : String) (now : Nat)
  | setCompleted (event_id : String) (now : Nat)
deriving DecidableEq, Repr

/-- UPDATE consumer_processed_events SET status = COMPLETED (and updated_at by
the onupdate clause) WHERE event_id = e.  A zero-row update is a no-op. -/
def updateCompleted : Table → String → Nat → Table
  | [], _, _ => []
  | p :: ps, e, now =>
    (if p.1 = e then (p.1, ⟨ProcessingStatus.COMPLETED, p.2.created_at, now⟩) else p) ::
      updateCompleted ps e now

/-- Effect of one statement on a table.  insertProcessing is the
INSERT .. ON CONFLICT DO NOTHING of _insert_event: a no-op when a row with the
key is present, otherwise it adds a PROCESSING row with both timestamps set by
their server defaults. -/
def applyOp (tbl : Table) : Op → Table
  | Op.insertProcessing e now =>
    match tlookup tbl e with
    | some _ => tbl
    | none => tbl ++ [(e, ⟨ProcessingStatus.PROCESSING, now, now⟩)]
  | Op.setCompleted e now => updateCompleted tbl e now

def applyOps (tbl : Table) (ops : List Op) : Table := ops.foldl applyOp tbl

/-- Global system state: the committed table, the advisory locks
(lock key to holding transaction), and each open transaction's pending
uncommitted statements. -/
structure DBState where
  committed : Table
  locks : List (Int × Nat)
  pending : List (Nat × List Op)
deriving DecidableEq, Repr

def lockHolder (s : DBState) (key : Int) : Option Nat := tlookup s.locks key

def pendingOps (s : DBState) (t : Nat) : List Op := (tlookup s.pending t).getD []

/-- What transaction t reads: the committed table overlaid with its own
pending statements. -/
def view (s : DBState) (t : Nat) : Table := applyOps s.committed (pendingOps s t)

/-- The scalar_one_or_none() result of _get_event_processing_state. -/
def viewStatus (s : DBState) (t : Nat) (e : String) : Option ProcessingStatus :=
  (tlookup (view s t) e).map Row.status

def committedStatus (s : DBState) (e : String) : Option ProcessingStatus :=
  (tlookup s.committed e).map Row.status

inductive ClaimError where
  | lockContention
  | alreadyCompleted
deriving DecidableEq, Repr

deriving instance DecidableEq for Except

def appendOp (s : DBState) (t : Nat) (op : Op) : DBState :=
  { s with pending := tset s.pending t (pendingOps s t ++ [op]) }

/-- Steps 2 and 3 of try_claim_event, run once the advisory lock is held:
read the status; COMPLETED raises AlreadyCompletedError, an absent row is
inserted as PROCESSING, an existing PROCESSING row is resumed untouched. -/
def tryClaimLocked (s : DBState) (t : Nat) (e : String) (now : Nat) :
    DBState × Except ClaimError Unit :=
  match viewStatus s t e with
  | some ProcessingStatus.COMPLETED => (s, Except.error ClaimError.alreadyCompleted)
  | none => (appendOp s t (Op.insertProcessing e now), Except.ok ())
  | some ProcessingStatus.PROCESSING => (s, Except.ok ())

/-- SQLAlchemyEventClaimManager.try_claim_event.  Step 1 first attempts
pg_try_advisory_xact_lock on the hash-derived key: a key held by another
transaction raises LockContentionError and nothing else runs; a free key is
acquired; a key already held by the caller succeeds (the lock is reentrant
within one transaction). -/
def try_claim_event (s : DBState) (t : Nat) (e : String) (now : Nat) :
    DBState × Except ClaimError Unit :=
  let key := get_lock_key_for_event e
  match tlookup s.locks key with
  | some holder =>
    if holder = t then tryClaimLocked s t e now
    else (s, Except.error ClaimError.lockContention)
  | none => tryClaimLocked { s with locks := (key, t) :: s.locks } t e now

inductive LogLevel where
  | debug
  | info
  | warning
  | error
deriving DecidableEq, Repr

structure LogEntry where
  level : LogLevel
  msg : String
deriving DecidableEq, Repr

/-- SQLAlchemyEventClaimManager.mark_as_completed: issue the UPDATE .. SET
status = COMPLETED statement, then unconditionally log one info record; the
function never raises and never inspects the updated row count. -/
def mark_as_completed (s : DBState) (t : Nat) (e : String) (now : Nat) :
    DBState × List LogEntry :=
  (appendOp s t (Op.setCompleted e now),
   [⟨LogLevel.info, "Marked event " ++ e ++ " as COMPLETED within transaction."⟩])

def removeLocksOf : List (Int × Nat) → Nat → List (Int × Nat)
  | [], _ => []
  | p :: ps, t => if p.2 = t then removeLocksOf ps t else p :: removeLocksOf ps t

/-- session.commit(): replay the transaction's pending statements against the
committed table, release its transaction-scoped advisory locks, and end the
transaction. -/
def commitTxn (s : DBState) (t : Nat) : DBState :=
  { committed := applyOps s.committed (pendingOps s t),
    locks := removeLocksOf s.locks t,
    pending := tset s.pending t [] }

/-- session.rollback(): discard the transaction's pending statements and
release its transaction-scoped advisory locks. -/
def rollbackTxn (s : DBState) (t : Nat) : DBState :=
  { s with locks := removeLocksOf s.locks t, pending := tset s.pending t [] }

/-- One interleaved step by some transaction. -/
inductive SysOp where
  | tryClaim (t : Nat) (e : String) (now : Nat)
  | markCompleted (t : Nat) (e : String) (now : Nat)
  | commit (t : Nat)
  | rollback (t : Nat)
deriving DecidableEq, Repr

def runOp (s : DBState) : SysOp → DBState
  | SysOp.tryClaim t e now => (try_claim_event s t e now).1
  | SysOp.markCompleted t e now => (mark_as_completed s t e now).1
  | SysOp.commit t => commitTxn s t
  | SysOp.rollback t => rollbackTxn s t

def runOps (s : DBState) (l : List SysOp) : DBState := l.foldl runOp s

inductive UowAction where
  | committedTxn
  | rolledBack
deriving DecidableEq, Repr

/-- Control flow of SQLAlchemyUnitOfWork.__aexit__: with an exception pending,
roll back, otherwise commit; a failure of that very commit or rollback is
re-raised; returning None lets a pending exception propagate unchanged.
excIn is the exception raised inside the scope (if any) and opFailure the
exception raised by the one session operation `__aexit__` runs (if any);
the result is the action taken and the exception the caller observes. -/
def uow_aexit {α : Type} (excIn : Option α) (opFailure : Option α) :
    UowAction × Option α :=
  match excIn with
  | some e =>
    (UowAction.rolledBack,
     match opFailure with
     | some f => some f
     | none => some e)
  | none => (UowAction.committedTxn, opFailure)

/-- Number of rows carrying a given event id. -/
def countKey : Table → String → Nat
  | [], _ => 0
  | p :: ps, e => (if p.1 = e then 1 else 0) + countKey ps e

/-- Primary-key uniqueness: no event id occurs twice. -/
def keysNodup : Table → Bool
  | [] => true
  | p :: ps => (tlookup ps p.1).isNone && keysNodup ps

/-! Helper lemmas about the association-list primitives. -/

theorem tlookup_tset_self {κ ν : Type} [DecidableEq κ] (l : List (κ × ν)) (k : κ) (v : ν) :
    tlookup (tset l k v) k = some v := by
  induction l with
  | nil => simp [tset, tlookup]
  | cons p ps ih =>
    by_cases h : p.1 = k
    · simp [tset, h, tlookup]
    · simp [tset, h, tlookup, ih]

theorem tlookup_tset_ne {κ ν : Type} [DecidableEq κ] (l : List (κ × ν)) (k k' : κ) (v : ν)
    (hne : k' ≠ k) : tlookup (tset l k v) k' = tlookup l k' := by
  have hkk : ¬ k = k' := fun h => hne h.symm
  induction l with
  | nil => simp [tset, tlookup, hkk]
  | cons p ps ih =>
    by_cases h : p.1 = k
    · subst h
      simp [tset, tlookup, hkk]
    · by_cases h2 : p.1 = k'
      · simp [tset, h, tlookup, h2, hne]
      · simp [tset, h, tlookup, h2, ih]

theorem tlookup_append_some {κ ν : Type} [DecidableEq κ] (l l2 : List (κ × ν)) (k : κ) (v : ν)
    (h : tlookup l k = some v) : tlookup (l ++ l2) k = some v := by
  induction l with
  | nil => simp [tlookup] at h
  | cons p ps ih =>
    by_cases hp : p.1 = k
    · simp [tlookup, hp] at h ⊢
      exact h
    · simp [tlookup, hp] at h ⊢
      exact ih h

theorem tlookup_append_none {κ ν : Type} [DecidableEq κ] (l l2 : List (κ × ν)) (k : κ)
    (h : tlookup l k = none) : tlookup (l ++ l2) k = tlookup l2 k := by
  induction l with
  | nil => simp [tlookup]
  | cons p ps ih =>
    by_cases hp : p.1 = k
    · simp [tlookup, hp] at h
    · simp [tlookup, hp] at h ⊢
      exact ih h

theorem tlookup_singleton_self {κ ν : Type} [DecidableEq κ] (k : κ) (v : ν) :
    tlookup [(k, v)] k = some v := by
  simp [tlookup]

theorem tlookup_removeLocksOf_none (l : List (Int × Nat)) (k : Int) (t : Nat)
    (h : tlookup l k = none) : tlookup (removeLocksOf l t) k = none := by
  induction l with
  | nil => simp [removeLocksOf, tlookup]
  | cons p ps ih =>
    by_cases hp : p.1 = k
    · simp [tlookup, hp] at h
    · by_cases ht : p.2 = t
      · simp [removeLocksOf, ht]
        exact ih (by simpa [tlookup, hp] using h)
      · simp [removeLocksOf, ht, tlookup, hp]
        exact ih (by simpa [tlookup, hp] using h)

theorem removeLocksOf_cons_self (l : List (Int × Nat)) (k : Int) (t : Nat) :
    removeLocksOf ((k, t) :: l) t = removeLocksOf l t := by
  simp [removeLocksOf]

/-! Helper lemmas about table statements. -/

theorem tlookup_updateCompleted_self (tbl : Table) (e : String) (now : Nat) :
    tlookup (updateCompleted tbl e now) e =
      (tlookup tbl e).map (fun r => ⟨ProcessingStatus.COMPLETED, r.created_at, now⟩) := by
  induction tbl with
  | nil => simp [updateCompleted, tlookup]
  | cons p ps ih =>
    by_cases h : p.1 = e
    · simp [updateCompleted, h, tlookup]
    · simp [updateCompleted, h, tlookup, ih]

theorem tlookup_updateCompleted_ne (tbl : Table) (e e' : String) (now : Nat) (hne : e' ≠ e) :
    tlookup (updateCompleted tbl e now) e' = tlookup tbl e' := by
  have hee : ¬ e = e' := fun h => hne h.symm
  induction tbl with
  | nil => simp [updateCompleted, tlookup]
  | cons p ps ih =>
    by_cases h : p.1 = e
    · subst h
      simp [updateCompleted, tlookup, hee, ih]
    · by_cases h2 : p.1 = e'
      · simp [updateCompleted, h, tlookup, h2, hne]
      · simp [updateCompleted, h, tlookup, h2, ih]

theorem applyOps_append_one (tbl : Table) (ops : List Op) (op : Op) :
    applyOps tbl (ops ++ [op]) = applyOp (applyOps tbl ops) op := by
  simp [applyOps, List.foldl_append]

theorem applyOp_preserves_some (tbl : Table) (op : Op) (e : String) (r : Row)
    (h : tlookup tbl e = some r) :
    ∃ r', tlookup (applyOp tbl op) e = some r' ∧ r'.created_at = r.created_at ∧
      (r.status = ProcessingStatus.COMPLETED → r'.status = ProcessingStatus.COMPLETED) := by
  cases op with
  | insertProcessing e2 now =>
    by_cases he : e2 = e
    · subst he
      refine ⟨r, ?_, rfl, fun hc => hc⟩
      simp [applyOp, h]
    · cases hl : tlookup tbl e2 with
      | some r2 => exact ⟨r, by simpa [applyOp, hl] using h, rfl, fun hc => hc⟩
      | none =>
        refine ⟨r, ?_, rfl, fun hc => hc⟩
        simp only [applyOp, hl]
        exact tlookup_append_some tbl _ e r h
  | setCompleted e2 now =>
    by_cases he : e2 = e
    · subst he
      refine ⟨⟨ProcessingStatus.COMPLETED, r.created_at, now⟩, ?_, rfl, fun _ => rfl⟩
      simp [applyOp, tlookup_updateCompleted_self, h]
    · refine ⟨r, ?_, rfl, fun hc => hc⟩
      simp only [applyOp]
      rw [tlookup_updateCompleted_ne tbl e2 e now (fun hc => he hc.symm)]
      exact h

theorem applyOps_preserves_some (tbl : Table) (ops : List Op) (e : String) (r : Row)
    (h : tlookup tbl e = some r) :
    ∃ r', tlookup (applyOps tbl ops) e = some r' ∧ r'.created_at = r.created_at ∧
      (r.status = ProcessingStatus.COMPLETED → r'.status = ProcessingStatus.COMPLETED) := by
  induction ops generalizing tbl r with
  | nil => exact ⟨r, h, rfl, fun hc => hc⟩
  | cons op rest ih =>
    obtain ⟨r', hl, hc, hs⟩ := applyOp_preserves_some tbl op e r h
    obtain ⟨r'', hl2, hc2, hs2⟩ := ih (applyOp tbl op) r' hl
    exact ⟨r'', hl2, hc2.trans hc, fun hcomp => hs2 (hs hcomp)⟩

theorem applyOps_preserves_completedStatus (tbl : Table) (ops : List Op) (e : String)
    (h : (tlookup tbl e).map Row.status = some ProcessingStatus.COMPLETED) :
    (tlookup (applyOps tbl ops) e).map Row.status = some ProcessingStatus.COMPLETED := by
  cases hr : tlookup tbl e with
  | none => rw [hr] at h; simp at h
  | some r =>
    rw [hr] at h
    simp at h
    obtain ⟨r', hl, _, hs⟩ := applyOps_preserves_some tbl ops e r hr
    rw [hl]
    simp [hs h]

/-! Behavior lemmas for the transactional operations. -/

theorem pendingOps_appendOp_self (s : DBState) (t : Nat) (op : Op) :
    pendingOps (appendOp s t op) t = pendingOps s t ++ [op] := by
  simp [pendingOps, appendOp, tlookup_tset_self]

theorem pendingOps_appendOp_ne (s : DBState) (t t' : Nat) (op : Op) (h : t' ≠ t) :
    pendingOps (appendOp s t op) t' = pendingOps s t' := by
  simp [pendingOps, appendOp, tlookup_tset_ne _ _ _ _ h]

theorem view_appendOp_self (s : DBState) (t : Nat) (op : Op) :
    view (appendOp s t op) t = applyOp (view s t) op := by
  show applyOps s.committed (pendingOps (appendOp s t op) t) = _
  rw [pendingOps_appendOp_self, applyOps_append_one]
  rfl

theorem tryClaimLocked_committed_done (s : DBState) (t : Nat) (e : String) (now : Nat)
    (h : viewStatus s t e = some ProcessingStatus.COMPLETED) :
    tryClaimLocked s t e now = (s, Except.error ClaimError.alreadyCompleted) := by
  simp [tryClaimLocked, h]

theorem tryClaimLocked_absent (s : DBState) (t : Nat) (e : String) (now : Nat)
    (h : viewStatus s t e = none) :
    tryClaimLocked s t e now = (appendOp s t (Op.insertProcessing e now), Except.ok ()) := by
  simp [tryClaimLocked, h]

theorem tryClaimLocked_processing (s : DBState) (t : Nat) (e : String) (now : Nat)
    (h : viewStatus s t e = some ProcessingStatus.PROCESSING) :
    tryClaimLocked s t e now = (s, Except.ok ()) := by
  simp [tryClaimLocked, h]

theorem try_claim_event_contention (s : DBState) (t t' : Nat) (e : String) (now : Nat)
    (h : tlookup s.locks (get_lock_key_for_event e) = some t') (hne : t' ≠ t) :
    try_claim_event s t e now = (s, Except.error ClaimError.lockContention) := by
  simp [try_claim_event, h, hne]

theorem try_claim_event_reentrant (s : DBState) (t : Nat) (e : String) (now : Nat)
    (h : tlookup s.locks (get_lock_key_for_event e) = some t) :
    try_claim_event s t e now = tryClaimLocked s t e now := by
  simp [try_claim_event, h]

theorem try_claim_event_free (s : DBState) (t : Nat) (e : String) (now : Nat)
    (h : tlookup s.locks (get_lock_key_for_event e) = none) :
    try_claim_event s t e now =
      tryClaimLocked { s with locks := (get_lock_key_for_event e, t) :: s.locks } t e now := by
  simp [try_claim_event, h]

theorem tryClaimLocked_committed (s : DBState) (t : Nat) (e : String) (now : Nat) :
    (tryClaimLocked s t e now).1.committed = s.committed := by
  cases h : viewStatus s t e with
  | none => simp [tryClaimLocked_absent s t e now h, appendOp]
  | some st =>
    cases st with
    | COMPLETED => simp [tryClaimLocked_committed_done s t e now h]
    | PROCESSING => simp [tryClaimLocked_processing s t e now h]

theorem try_claim_event_committed (s : DBState) (t : Nat) (e : String) (now : Nat) :
    (try_claim_event s t e now).1.committed = s.committed := by
  cases h : tlookup s.locks (get_lock_key_for_event e) with
  | none => rw [try_claim_event_free s t e now h, tryClaimLocked_committed]
  | some holder =>
    by_cases ht : holder = t
    · subst ht
      rw [try_claim_event_reentrant s holder e now h, tryClaimLocked_committed]
    · rw [try_claim_event_contention s t holder e now h ht]

theorem runOp_preserves_completed (s : DBState) (op : SysOp) (e : String)
    (h : committedStatus s e = some ProcessingStatus.COMPLETED) :
    committedStatus (runOp s op) e = some ProcessingStatus.COMPLETED := by
  cases op with
  | tryClaim t e2 now =>
    show committedStatus (try_claim_event s t e2 now).1 e = _
    unfold committedStatus
    rw [try_claim_event_committed]
    exact h
  | markCompleted t e2 now => exact h
  | commit t =>
    show committedStatus (commitTxn s t) e = _
    unfold committedStatus commitTxn
    exact applyOps_preserves_completedStatus s.committed (pendingOps s t) e h
  | rollback t => exact h

theorem runOps_preserves_completed (l : List SysOp) (s : DBState) (e : String)
    (h : committedStatus s e = some ProcessingStatus.COMPLETED) :
    committedStatus (runOps s l) e = some ProcessingStatus.COMPLETED := by
  induction l generalizing s with
  | nil => exact h
  | cons op rest ih =>
    show committedStatus (runOps (runOp s op) rest) e = _
    exact ih (runOp s op) (runOp_preserves_completed s op e h)

theorem try_claim_ok_row_exists (s s1 : DBState) (t : Nat) (e : String) (now : Nat)
    (hok : try_claim_event s t e now = (s1, Except.ok ())) :
    ∃ r, tlookup (view s1 t) e = some r := by
  have main : ∀ s' : DBState, tryClaimLocked s' t e now = (s1, Except.ok ()) →
      ∃ r, tlookup (view s1 t) e = some r := by
    intro s' hl
    cases h : viewStatus s' t e with
    | none =>
      rw [tryClaimLocked_absent s' t e now h] at hl
      have hs1 : s1 = appendOp s' t (Op.insertProcessing e now) := by
        have := congrArg Prod.fst hl
        exact this.symm
      subst hs1
      rw [view_appendOp_self]
      have hnone : tlookup (view s' t) e = none := by
        unfold viewStatus at h
        cases hr : tlookup (view s' t) e with
        | none => rfl
        | some r => rw [hr] at h; simp at h
      refine ⟨⟨ProcessingStatus.PROCESSING, now, now⟩, ?_⟩
      show tlookup (applyOp (view s' t) (Op.insertProcessing e now)) e = _
      simp only [applyOp, hnone]
      rw [tlookup_append_none _ _ _ hnone]
      exact tlookup_singleton_self _ _
    | some st =>
      cases st with
      | COMPLETED => rw [tryClaimLocked_committed_done s' t e now h] at hl; simp at hl
      | PROCESSING =>
        rw [tryClaimLocked_processing s' t e now h] at hl
        have hs1 : s1 = s' := by
          have := congrArg Prod.fst hl
          exact this.symm
        rw [hs1]
        unfold viewStatus at h
        cases hr : tlookup (view s' t) e with
        | none => rw [hr] at h; simp at h
        | some r => exact ⟨r, rfl⟩
  cases h : tlookup s.locks (get_lock_key_for_event e) with
  | none =>
    rw [try_claim_event_free s t e now h] at hok
    exact main _ hok
  | some holder =>
    by_cases ht : holder = t
    · subst ht
      rw [try_claim_event_reentrant s holder e now h] at hok
      exact main _ hok
    · rw [try_claim_event_contention s t holder e now h ht] at hok
      simp at hok

/-! Lemmas about byte lists and the lock-key derivation. -/

theorem natToBytesBE_lt (k n : Nat) : ∀ b ∈ natToBytesBE k n, b < 256 := by
  induction k generalizing n with
  | zero => intro b hb; simp [natToBytesBE] at hb
  | succ k ih =>
    intro b hb
    simp only [natToBytesBE, List.mem_append, List.mem_singleton] at hb
    cases hb with
    | inl h => exact ih (n / 256) b h
    | inr h => rw [h]; exact Nat.mod_lt _ (by norm_num)

theorem natToBytesBE_length (k n : Nat) : (natToBytesBE k n).length = k := by
  induction k generalizing n with
  | zero => simp [natToBytesBE]
  | succ k ih => simp [natToBytesBE, ih]

theorem sha256_length (bs : List Nat) : (sha256 bs).length = 32 := by
  simp [sha256, natToBytesBE_length]

theorem sha256_bytes_lt (bs : List Nat) : ∀ b ∈ sha256 bs, b < 256 := by
  intro b hb
  simp only [sha256, List.mem_append] at hb
  rcases hb with ((((((h | h) | h) | h) | h) | h) | h) | h <;> exact natToBytesBE_lt _ _ b h

theorem bytesToNatBE_bound (bs : List Nat) (acc M : Nat) (hacc : acc < M)
    (hb : ∀ b ∈ bs, b < 256) :
    List.foldl (fun a b => a * 256 + b) acc bs < M * 256 ^ bs.length := by
  induction bs generalizing acc M with
  | nil => simpa using hacc
  | cons b rest ih =>
    have hb0 : b < 256 := hb b (List.mem_cons_self _ _)
    have hstep : acc * 256 + b < M * 256 := by nlinarith
    have hrec := ih (acc * 256 + b) (M * 256) hstep (fun x hx => hb x (List.mem_cons_of_mem _ hx))
    calc List.foldl (fun a b => a * 256 + b) acc (b :: rest)
        = List.foldl (fun a b => a * 256 + b) (acc * 256 + b) rest := rfl
      _ < (M * 256) * 256 ^ rest.length := hrec
      _ = M * 256 ^ (b :: rest).length := by rw [List.length_cons, pow_succ]; ring

theorem intFromBytesSigned_bounds (bs : List Nat) (hlen : bs.length = 8)
    (hb : ∀ b ∈ bs, b < 256) :
    -(2 ^ 63) ≤ intFromBytesSigned bs ∧ intFromBytesSigned bs < 2 ^ 63 := by
  have hu : bytesToNatBE bs < 2 ^ 64 := by
    have h := bytesToNatBE_bound bs 0 1 (by norm_num) hb
    rw [hlen] at h
    unfold bytesToNatBE
    calc List.foldl (fun a b => a * 256 + b) 0 bs < 1 * 256 ^ 8 := h
      _ = 2 ^ 64 := by norm_num
  unfold intFromBytesSigned
  rw [hlen]
  norm_num
  by_cases h : bytesToNatBE bs < 2 ^ 63
  · rw [if_pos (by exact_mod_cast h)]
    constructor
    · have : (0 : Int) ≤ (bytesToNatBE bs : Int) := Int.ofNat_nonneg _
      omega
    · exact_mod_cast h
  · rw [if_neg (by exact_mod_cast h)]
    have h1 : (2 : Int) ^ 63 ≤ (bytesToNatBE bs : Int) := by
      have := Nat.le_of_not_lt h
      exact_mod_cast this
    have h2 : (bytesToNatBE bs : Int) < 2 ^ 64 := by exact_mod_cast hu
    omega

/-- FIPS 180-4 known-answer test: the embedded SHA-256 maps the ASCII string
abc to the standard digest. -/
theorem sha256_known_answer_abc : sha256 (utf8Encode "abc") =
    [186, 120, 22, 191, 143, 1, 207, 234, 65, 65,
     64, 222, 93, 174, 34, 35, 176, 3, 97, 163,
     150, 23, 122, 156, 180, 16, 255, 97, 242, 0,
     21, 173] := by
  decide

/-- C7: the advisory lock key of an event id is obtained by hashing the UTF-8
encoding of the id with SHA-256 and reading the first 8 digest bytes as a
signed big-endian 64-bit integer; being a pure function of the event id it is
the same on every call and in every process, and it always lies in the signed
64-bit range. -/
theorem lock_key_derivation (e : String) :
    get_lock_key_for_event e = intFromBytesSigned ((sha256 (utf8Encode e)).take 8) ∧
    ((sha256 (utf8Encode e)).take 8).length = 8 ∧
    -(2 ^ 63) ≤ get_lock_key_for_event e ∧ get_lock_key_for_event e < 2 ^ 63 := by
  have hlen : ((sha256 (utf8Encode e)).take 8).length = 8 := by
    rw [List.length_take, sha256_length]
    norm_num
  have hbytes : ∀ b ∈ (sha256 (utf8Encode e)).take 8, b < 256 :=
    fun b hb => sha256_bytes_lt (utf8Encode e) b (List.mem_of_mem_take hb)
  have hbound := intFromBytesSigned_bounds _ hlen hbytes
  exact ⟨rfl, hlen, hbound.1, hbound.2⟩

/-! Lemmas about zero-row updates, duplicate counting and key uniqueness. -/

theorem updateCompleted_absent (tbl : Table) (e : String) (now : Nat)
    (h : tlookup tbl e = none) : updateCompleted tbl e now = tbl := by
  induction tbl with
  | nil => rfl
  | cons p ps ih =>
    by_cases hp : p.1 = e
    · simp [tlookup, hp] at h
    · simp only [tlookup, hp, if_false] at h
      simp [updateCompleted, hp, ih h]

theorem tlookup_updateCompleted_none (tbl : Table) (e k : String) (now : Nat)
    (h : tlookup tbl k = none) : tlookup (updateCompleted tbl e now) k = none := by
  by_cases hk : k = e
  · subst hk
    rw [tlookup_updateCompleted_self, h]
    rfl
  · rw [tlookup_updateCompleted_ne tbl e k now hk]
    exact h

theorem countKey_eq_zero_of_absent (tbl : Table) (e : String)
    (h : tlookup tbl e = none) : countKey tbl e = 0 := by
  induction tbl with
  | nil => rfl
  | cons p ps ih =>
    by_cases hp : p.1 = e
    · simp [tlookup, hp] at h
    · simp only [tlookup, hp, if_false] at h
      simp [countKey, hp, ih h]

theorem countKey_append (l1 l2 : Table) (e : String) :
    countKey (l1 ++ l2) e = countKey l1 e + countKey l2 e := by
  induction l1 with
  | nil => simp [countKey]
  | cons p ps ih => simp [countKey, ih]; ring

theorem keysNodup_append_absent (tbl : Table) (e : String) (r : Row)
    (hn : keysNodup tbl = true) (ha : tlookup tbl e = none) :
    keysNodup (tbl ++ [(e, r)]) = true := by
  induction tbl with
  | nil => simp [keysNodup, tlookup]
  | cons p ps ih =>
    simp only [keysNodup, Bool.and_eq_true, Option.isNone_iff_eq_none] at hn
    by_cases hp : p.1 = e
    · simp [tlookup, hp] at ha
    · simp only [tlookup, hp, if_false] at ha
      have hep : ¬ e = p.1 := fun hc => hp hc.symm
      have h1 : tlookup (ps ++ [(e, r)]) p.1 = none := by
        rw [tlookup_append_none _ _ _ hn.1]
        simp [tlookup, hep]
      show keysNodup (p :: (ps ++ [(e, r)])) = true
      simp only [keysNodup, Bool.and_eq_true, Option.isNone_iff_eq_none]
      exact ⟨h1, ih hn.2 ha⟩

theorem keysNodup_updateCompleted (tbl : Table) (e : String) (now : Nat)
    (hn : keysNodup tbl = true) : keysNodup (updateCompleted tbl e now) = true := by
  induction tbl with
  | nil => simp [keysNodup, updateCompleted]
  | cons p ps ih =>
    simp only [keysNodup, Bool.and_eq_true, Option.isNone_iff_eq_none] at hn
    have hkey : ((if p.1 = e then
        (p.1, (⟨ProcessingStatus.COMPLETED, p.2.created_at, now⟩ : Row)) else p)).1 = p.1 := by
      by_cases hp : p.1 = e <;> simp [hp]
    simp only [updateCompleted, keysNodup, Bool.and_eq_true, Option.isNone_iff_eq_none, hkey]
    exact ⟨tlookup_updateCompleted_none ps e p.1 now hn.1, ih hn.2⟩

theorem keysNodup_applyOp (tbl : Table) (op : Op)
    (hn : keysNodup tbl = true) : keysNodup (applyOp tbl op) = true := by
  cases op with
  | insertProcessing e now =>
    cases h : tlookup tbl e with
    | some r => simpa [applyOp, h] using hn
    | none =>
      simp only [applyOp, h]
      exact keysNodup_append_absent tbl e _ hn h
  | setCompleted e now => exact keysNodup_updateCompleted tbl e now hn

theorem keysNodup_applyOps (tbl : Table) (ops : List Op)
    (hn : keysNodup tbl = true) : keysNodup (applyOps tbl ops) = true := by
  induction ops generalizing tbl with
  | nil => exact hn
  | cons op rest ih => exact ih (applyOp tbl op) (keysNodup_applyOp tbl op hn)

/-- C6: Transactional Unit exit contract of SQLAlchemyUnitOfWork.__aexit__.
On normal scope exit the transaction is committed and no error reaches the
caller; on an error raised inside the scope the transaction is rolled back and,
when the rollback itself succeeds, the original error propagates unchanged; a
failure of the commit or rollback operation itself propagates; an in-scope
error is never swallowed. -/
theorem uow_exit_contract {α : Type} (excIn opFailure : Option α) :
    (excIn = none → opFailure = none →
       uow_aexit excIn opFailure = (UowAction.committedTxn, none)) ∧
    (∀ e, excIn = some e → opFailure = none →
       uow_aexit excIn opFailure = (UowAction.rolledBack, some e)) ∧
    (∀ f, opFailure = some f → (uow_aexit excIn opFailure).2 = some f) ∧
    (excIn ≠ none → (uow_aexit excIn opFailure).1 = UowAction.rolledBack ∧
       (uow_aexit excIn opFailure).2 ≠ none) := by
  cases excIn <;> cases opFailure <;> simp [uow_aexit]

/-- Witness for the exit contract at concrete error values. -/
theorem uow_exit_contract_witness :
    uow_aexit (some 7) (none : Option Nat) = (UowAction.rolledBack, some 7) ∧
    uow_aexit (none : Option Nat) none = (UowAction.committedTxn, none) ∧
    (uow_aexit (some 7) (some 3)).2 = some 3 :=
  ⟨(uow_exit_contract (some 7) none).2.1 7 rfl rfl,
   (uow_exit_contract (none : Option Nat) none).1 rfl rfl,
   (uow_exit_contract (some 7) (some 3)).2.2.1 3 rfl⟩

/-- C9 counterexample: with no row for E1, mark_as_completed emits exactly the
log records it emits when a properly claimed row exists (the single
unconditional info-level success message), every emitted record is info-level,
and the zero-row update leaves the observable table unchanged.  The
implementation therefore does not log the zero-row update as anomalous. -/
theorem mark_completed_no_anomalous_log :
    (mark_as_completed ⟨[], [], []⟩ 0 "E1" 5).2 =
      (mark_as_completed ⟨[("E1", ⟨ProcessingStatus.PROCESSING, 1, 1⟩)], [], []⟩ 0 "E1" 5).2 ∧
    (∀ l ∈ (mark_as_completed ⟨[], [], []⟩ 0 "E1" 5).2, l.level = LogLevel.info) ∧
    tlookup (view (mark_as_completed ⟨[], [], []⟩ 0 "E1" 5).1 0) "E1" = none := by
  decide

/-- C9 amended: for an event id with no existing row, mark_as_completed
returns normally (the zero-row UPDATE is non-fatal and leaves the observable
table unchanged), but nothing anomalous is logged: the only output is the
unconditional info-level success record, identical to the output on any other
store state. -/
theorem mark_completed_zero_row_behavior (s : DBState) (t : Nat) (e : String) (now : Nat)
    (h : tlookup (view s t) e = none) :
    view (mark_as_completed s t e now).1 t = view s t ∧
    (mark_as_completed s t e now).2 =
      [⟨LogLevel.info, "Marked event " ++ e ++ " as COMPLETED within transaction."⟩] ∧
    (∀ l ∈ (mark_as_completed s t e now).2, l.level = LogLevel.info) ∧
    ∀ (s' : DBState) (t' now' : Nat),
      (mark_as_completed s' t' e now').2 = (mark_as_completed s t e now).2 := by
  refine ⟨?_, rfl, ?_, fun s' t' now' => rfl⟩
  · show view (appendOp s t (Op.setCompleted e now)) t = view s t
    rw [view_appendOp_self]
    exact updateCompleted_absent (view s t) e now h
  · intro l hl
    simp [mark_as_completed] at hl
    rw [hl]

/-- Witness for the zero-row mark_as_completed behavior on an empty store. -/
theorem mark_completed_zero_row_behavior_witness :
    tlookup (view ⟨[], [], []⟩ 0) "E1" = none ∧
    view (mark_as_completed ⟨[], [], []⟩ 0 "E1" 5).1 0 = view ⟨[], [], []⟩ 0 :=
  ⟨by decide, (mark_completed_zero_row_behavior ⟨[], [], []⟩ 0 "E1" 5 (by decide)).1⟩

/-- C8: store invariants preserved by every sequence of statements: primary-key
uniqueness is preserved; an existing row is never deleted and its created_at is
never changed; the only status change a statement sequence can apply to a row
is PROCESSING to COMPLETED, never the reverse; an insert whose key already has
a row is a complete no-op that overwrites nothing; and a status is always one
of the two enum values. -/
theorem store_invariants (tbl : Table) (ops : List Op) (e : String) (r : Row) (now : Nat)
    (hr : tlookup tbl e = some r) :
    (keysNodup tbl = true → keysNodup (applyOps tbl ops) = true) ∧
    (∃ r', tlookup (applyOps tbl ops) e = some r' ∧ r'.created_at = r.created_at ∧
       (r'.status ≠ r.status →
         r.status = ProcessingStatus.PROCESSING ∧
         r'.status = ProcessingStatus.COMPLETED)) ∧
    applyOp tbl (Op.insertProcessing e now) = tbl ∧
    (r.status = ProcessingStatus.PROCESSING ∨ r.status = ProcessingStatus.COMPLETED) := by
  refine ⟨fun hn => keysNodup_applyOps tbl ops hn, ?_, ?_, ?_⟩
  · obtain ⟨r', h1, h2, h3⟩ := applyOps_preserves_some tbl ops e r hr
    refine ⟨r', h1, h2, ?_⟩
    intro hne
    cases hs : r.status with
    | PROCESSING =>
      refine ⟨rfl, ?_⟩
      cases hs' : r'.status with
      | PROCESSING => rw [hs, hs'] at hne; exact absurd rfl hne
      | COMPLETED => rfl
    | COMPLETED => exact absurd (h3 hs) (by rw [hs] at hne; exact hne)
  · simp [applyOp, hr]
  · cases hs : r.status with
    | PROCESSING => exact Or.inl rfl
    | COMPLETED => exact Or.inr rfl

/-- Witness for the store invariants on a one-row table and a completing
statement. -/
theorem store_invariants_witness :
    tlookup [("E1", (⟨ProcessingStatus.PROCESSING, 1, 1⟩ : Row))] "E1" =
      some ⟨ProcessingStatus.PROCESSING, 1, 1⟩ ∧
    applyOp [("E1", (⟨ProcessingStatus.PROCESSING, 1, 1⟩ : Row))] (Op.insertProcessing "E1" 3) =
      [("E1", ⟨ProcessingStatus.PROCESSING, 1, 1⟩)] :=
  ⟨by decide,
   (store_invariants [("E1", ⟨ProcessingStatus.PROCESSING, 1, 1⟩)] [Op.setCompleted "E1" 2]
     "E1" ⟨ProcessingStatus.PROCESSING, 1, 1⟩ 3 (by decide)).2.2.1⟩

theorem view_locks_update (s : DBState) (l : List (Int × Nat)) (t : Nat) :
    view { s with locks := l } t = view s t := rfl

theorem viewStatus_locks_update (s : DBState) (l : List (Int × Nat)) (t : Nat) (e : String) :
    viewStatus { s with locks := l } t e = viewStatus s t e := rfl

theorem pendingOps_locks_update (s : DBState) (l : List (Int × Nat)) (t : Nat) :
    pendingOps { s with locks := l } t = pendingOps s t := rfl

/-- C4: postconditions of try_claim_event when the advisory lock is free or
already held by the caller: the call fails with AlreadyCompletedError exactly
when the stored status reads COMPLETED; on an absent row it issues exactly one
PROCESSING insert, after which the row reads PROCESSING; on an existing
PROCESSING row it succeeds issuing no statement; and in every one of these
cases the lock was taken before the status read (it is held in the resulting
state even when the call fails with AlreadyCompletedError) while the insert
happens only after an absent-row read, and the committed table is untouched. -/
theorem try_claim_postconditions (s : DBState) (t : Nat) (e : String) (now : Nat)
    (hlock : tlookup s.locks (get_lock_key_for_event e) = none ∨
             tlookup s.locks (get_lock_key_for_event e) = some t) :
    ((try_claim_event s t e now).2 = Except.error ClaimError.alreadyCompleted ↔
       viewStatus s t e = some ProcessingStatus.COMPLETED) ∧
    (viewStatus s t e = none →
       (try_claim_event s t e now).2 = Except.ok () ∧
       pendingOps (try_claim_event s t e now).1 t =
         pendingOps s t ++ [Op.insertProcessing e now] ∧
       viewStatus (try_claim_event s t e now).1 t e = some ProcessingStatus.PROCESSING) ∧
    (viewStatus s t e = some ProcessingStatus.PROCESSING →
       (try_claim_event s t e now).2 = Except.ok () ∧
       pendingOps (try_claim_event s t e now).1 t = pendingOps s t) ∧
    lockHolder (try_claim_event s t e now).1 (get_lock_key_for_event e) = some t ∧
    (try_claim_event s t e now).1.committed = s.committed := by
  have main : ∀ s'' : DBState, tlookup s''.locks (get_lock_key_for_event e) = some t →
      ((tryClaimLocked s'' t e now).2 = Except.error ClaimError.alreadyCompleted ↔
         viewStatus s'' t e = some ProcessingStatus.COMPLETED) ∧
      (viewStatus s'' t e = none →
         (tryClaimLocked s'' t e now).2 = Except.ok () ∧
         pendingOps (tryClaimLocked s'' t e now).1 t =
           pendingOps s'' t ++ [Op.insertProcessing e now] ∧
         viewStatus (tryClaimLocked s'' t e now).1 t e = some ProcessingStatus.PROCESSING) ∧
      (viewStatus s'' t e = some ProcessingStatus.PROCESSING →
         (tryClaimLocked s'' t e now).2 = Except.ok () ∧
         pendingOps (tryClaimLocked s'' t e now).1 t = pendingOps s'' t) ∧
      lockHolder (tryClaimLocked s'' t e now).1 (get_lock_key_for_event e) = some t ∧
      (tryClaimLocked s'' t e now).1.committed = s''.committed := by
    intro s'' hk
    cases hv : viewStatus s'' t e with
    | none =>
      rw [tryClaimLocked_absent s'' t e now hv]
      have hnone : tlookup (view s'' t) e = none := by
        unfold viewStatus at hv
        cases hr : tlookup (view s'' t) e with
        | none => rfl
        | some r => rw [hr] at hv; simp at hv
      refine ⟨by constructor <;> intro hc <;> simp_all, ?_, by intro hc; simp at hc,
        hk, rfl⟩
      intro _
      refine ⟨rfl, pendingOps_appendOp_self s'' t _, ?_⟩
      unfold viewStatus
      rw [view_appendOp_self]
      show (tlookup (applyOp (view s'' t) (Op.insertProcessing e now)) e).map Row.status = _
      simp only [applyOp, hnone]
      rw [tlookup_append_none _ _ _ hnone, tlookup_singleton_self]
      rfl
    | some st =>
      cases st with
      | COMPLETED =>
        rw [tryClaimLocked_committed_done s'' t e now hv]
        exact ⟨by simp, by intro hc; simp at hc,
          by intro hc; simp at hc, hk, rfl⟩
      | PROCESSING =>
        rw [tryClaimLocked_processing s'' t e now hv]
        exact ⟨by simp, by intro hc; simp at hc,
          fun _ => ⟨rfl, rfl⟩, hk, rfl⟩
  cases hlock with
  | inl hfree =>
    rw [try_claim_event_free s t e now hfree]
    have hk : tlookup ({ s with locks := (get_lock_key_for_event e, t) :: s.locks } :
        DBState).locks (get_lock_key_for_event e) = some t := by
      simp [tlookup]
    exact main _ hk
  | inr hself =>
    rw [try_claim_event_reentrant s t e now hself]
    exact main s hself

/-- Witness for the try_claim postconditions on an empty store. -/
theorem try_claim_postconditions_witness :
    (tlookup (DBState.mk [] [] []).locks (get_lock_key_for_event "E1") = none ∨
     tlookup (DBState.mk [] [] []).locks (get_lock_key_for_event "E1") = some 0) ∧
    (try_claim_event ⟨[], [], []⟩ 0 "E1" 1).1.committed = [] :=
  ⟨Or.inl (by decide),
   (try_claim_postconditions ⟨[], [], []⟩ 0 "E1" 1 (Or.inl (by decide))).2.2.2.2⟩

/-- C5: idempotent insertion inside one transaction: on a never-before-seen
event id with a free lock, the first try_claim_event succeeds, a second
try_claim_event in the same transaction succeeds while changing nothing at all
(the reentrant lock probe succeeds and the row now reads PROCESSING, so no
second insert is issued), and the table seen by the transaction holds exactly
one row for the event id. -/
theorem try_claim_idempotent_insertion (s : DBState) (t : Nat) (e : String) (n1 n2 : Nat)
    (hfree : tlookup s.locks (get_lock_key_for_event e) = none)
    (habs : tlookup (view s t) e = none) :
    (try_claim_event s t e n1).2 = Except.ok () ∧
    try_claim_event (try_claim_event s t e n1).1 t e n2 =
      ((try_claim_event s t e n1).1, Except.ok ()) ∧
    countKey (view (try_claim_event s t e n1).1 t) e = 1 := by
  have hv' : viewStatus { s with locks := (get_lock_key_for_event e, t) :: s.locks } t e
      = none := by
    rw [viewStatus_locks_update]
    unfold viewStatus
    rw [habs]
    rfl
  have h1 : try_claim_event s t e n1 =
      (appendOp { s with locks := (get_lock_key_for_event e, t) :: s.locks } t
        (Op.insertProcessing e n1), Except.ok ()) := by
    rw [try_claim_event_free s t e n1 hfree]
    exact tryClaimLocked_absent _ t e n1 hv'
  have hviewtbl : view (try_claim_event s t e n1).1 t = view s t ++
      [(e, ⟨ProcessingStatus.PROCESSING, n1, n1⟩)] := by
    rw [h1]
    show view (appendOp _ t _) t = _
    rw [view_appendOp_self, view_locks_update]
    simp only [applyOp, habs]
  have hrow : tlookup (view (try_claim_event s t e n1).1 t) e =
      some ⟨ProcessingStatus.PROCESSING, n1, n1⟩ := by
    rw [hviewtbl, tlookup_append_none _ _ _ habs, tlookup_singleton_self]
  have hvs : viewStatus (try_claim_event s t e n1).1 t e =
      some ProcessingStatus.PROCESSING := by
    unfold viewStatus
    rw [hrow]
    rfl
  have hk : tlookup (try_claim_event s t e n1).1.locks (get_lock_key_for_event e) =
      some t := by
    rw [h1]
    show tlookup ((get_lock_key_for_event e, t) :: s.locks) _ = some t
    simp [tlookup]
  refine ⟨by rw [h1], ?_, ?_⟩
  · rw [try_claim_event_reentrant _ t e n2 hk]
    exact tryClaimLocked_processing _ t e n2 hvs
  · rw [hviewtbl, countKey_append, countKey_eq_zero_of_absent _ _ habs]
    simp [countKey]

/-- Witness for idempotent insertion on an empty store. -/
theorem try_claim_idempotent_insertion_witness :
    tlookup (DBState.mk [] [] []).locks (get_lock_key_for_event "E1") = none ∧
    tlookup (view ⟨[], [], []⟩ 0) "E1" = none ∧
    (try_claim_event ⟨[], [], []⟩ 0 "E1" 1).2 = Except.ok () :=
  ⟨by decide, by decide,
   (try_claim_idempotent_insertion ⟨[], [], []⟩ 0 "E1" 1 2 (by decide) (by decide)).1⟩

/-- C10: resume-path frame property.  Claiming an event whose row already
reads PROCESSING (lock free) writes nothing at all: the committed table, every
transaction's pending statements, and hence every row with all of its fields
(event_id, status, created_at, updated_at) are exactly as before.  And the
mark_as_completed statement rewrites only the status and updated_at of the
targeted row, preserving created_at and leaving the lookup of every other
event id untouched. -/
theorem resume_frame_property (s : DBState) (t : Nat) (e : String) (now : Nat)
    (tbl : Table) (e' : String) (r : Row) (now2 : Nat)
    (hst : viewStatus s t e = some ProcessingStatus.PROCESSING)
    (hfree : tlookup s.locks (get_lock_key_for_event e) = none)
    (hne : e' ≠ e)
    (hr : tlookup tbl e = some r) :
    ((try_claim_event s t e now).2 = Except.ok () ∧
     (try_claim_event s t e now).1.committed = s.committed ∧
     (∀ u, pendingOps (try_claim_event s t e now).1 u = pendingOps s u) ∧
     view (try_claim_event s t e now).1 t = view s t) ∧
    view (mark_as_completed s t e now2).1 t = updateCompleted (view s t) e now2 ∧
    tlookup (updateCompleted tbl e now2) e' = tlookup tbl e' ∧
    tlookup (updateCompleted tbl e now2) e =
      some ⟨ProcessingStatus.COMPLETED, r.created_at, now2⟩ := by
  have hv' : viewStatus { s with locks := (get_lock_key_for_event e, t) :: s.locks } t e =
      some ProcessingStatus.PROCESSING := by
    rw [viewStatus_locks_update]
    exact hst
  have h1 : try_claim_event s t e now =
      ({ s with locks := (get_lock_key_for_event e, t) :: s.locks }, Except.ok ()) := by
    rw [try_claim_event_free s t e now hfree]
    exact tryClaimLocked_processing _ t e now hv'
  refine ⟨⟨by rw [h1], by rw [h1], fun u => by rw [h1]; rfl, by rw [h1]; rfl⟩, ?_, ?_, ?_⟩
  · show view (appendOp s t (Op.setCompleted e now2)) t = _
    rw [view_appendOp_self]
    rfl
  · exact tlookup_updateCompleted_ne tbl e e' now2 hne
  · rw [tlookup_updateCompleted_self, hr]
    rfl

/-- Witness for the resume-path frame property on a store holding one
PROCESSING row. -/
theorem resume_frame_property_witness :
    viewStatus ⟨[("E1", ⟨ProcessingStatus.PROCESSING, 1, 1⟩)], [], []⟩ 0 "E1" =
      some ProcessingStatus.PROCESSING ∧
    (try_claim_event ⟨[("E1", ⟨ProcessingStatus.PROCESSING, 1, 1⟩)], [], []⟩ 0 "E1" 2).2 =
      Except.ok () :=
  ⟨by decide,
   (resume_frame_property ⟨[("E1", ⟨ProcessingStatus.PROCESSING, 1, 1⟩)], [], []⟩ 0 "E1" 2
     [("E1", ⟨ProcessingStatus.PROCESSING, 1, 1⟩)] "E2" ⟨ProcessingStatus.PROCESSING, 1, 1⟩ 3
     (by decide) (by decide) (by decide) (by decide)).1.1⟩

set_option maxRecDepth 16384 in
/-- C1 counterexample: with event E1 already COMPLETED in the committed store
and no lock held, two concurrent transactions (0 first, then 1) both call
try_claim_event before either commits or rolls back: the first fails with
AlreadyCompletedError while still taking the lock, the second fails with
LockContentionError, so it is not the case that exactly one of the two calls
succeeds with the other failing with LockContentionError. -/
theorem mutual_exclusion_counterexample :
    (try_claim_event ⟨[("E1", ⟨ProcessingStatus.COMPLETED, 0, 0⟩)], [], []⟩ 0 "E1" 1).2 =
      Except.error ClaimError.alreadyCompleted ∧
    (try_claim_event
        (try_claim_event ⟨[("E1", ⟨ProcessingStatus.COMPLETED, 0, 0⟩)], [], []⟩ 0 "E1" 1).1
        1 "E1" 2).2 = Except.error ClaimError.lockContention ∧
    ¬ (((try_claim_event ⟨[("E1", ⟨ProcessingStatus.COMPLETED, 0, 0⟩)], [], []⟩ 0 "E1" 1).2 =
          Except.ok () ∧
        (try_claim_event
            (try_claim_event ⟨[("E1", ⟨ProcessingStatus.COMPLETED, 0, 0⟩)], [], []⟩ 0 "E1" 1).1
            1 "E1" 2).2 = Except.error ClaimError.lockContention) ∨
       ((try_claim_event
            (try_claim_event ⟨[("E1", ⟨ProcessingStatus.COMPLETED, 0, 0⟩)], [], []⟩ 0 "E1" 1).1
            1 "E1" 2).2 = Except.ok () ∧
        (try_claim_event ⟨[("E1", ⟨ProcessingStatus.COMPLETED, 0, 0⟩)], [], []⟩ 0 "E1" 1).2 =
          Except.error ClaimError.lockContention)) := by
  decide

/-- C1 amended: mutual exclusion holds for events that are not already
completed: with the lock free and the first transaction not reading COMPLETED
for the event, of two distinct concurrent transactions calling try_claim_event
before either ends, exactly the winner of the lock succeeds and the other
fails with LockContentionError (the two ids are arbitrary, so either arrival
order is an instance). -/
theorem mutual_exclusion_amended (s : DBState) (t1 t2 : Nat) (e : String) (n1 n2 : Nat)
    (hne : t2 ≠ t1)
    (hfree : tlookup s.locks (get_lock_key_for_event e) = none)
    (hnc : viewStatus s t1 e ≠ some ProcessingStatus.COMPLETED) :
    (try_claim_event s t1 e n1).2 = Except.ok () ∧
    (try_claim_event (try_claim_event s t1 e n1).1 t2 e n2).2 =
      Except.error ClaimError.lockContention := by
  have ht12 : t1 ≠ t2 := fun h => hne h.symm
  rw [try_claim_event_free s t1 e n1 hfree]
  cases hv : viewStatus s t1 e with
  | none =>
    have hv' : viewStatus { s with locks := (get_lock_key_for_event e, t1) :: s.locks } t1 e =
        none := by
      rw [viewStatus_locks_update]
      exact hv
    rw [tryClaimLocked_absent _ t1 e n1 hv']
    refine ⟨rfl, ?_⟩
    have hk : tlookup (appendOp
        { s with locks := (get_lock_key_for_event e, t1) :: s.locks } t1
        (Op.insertProcessing e n1)).locks (get_lock_key_for_event e) = some t1 := by
      show tlookup ((get_lock_key_for_event e, t1) :: s.locks) _ = some t1
      simp [tlookup]
    rw [try_claim_event_contention _ t2 t1 e n2 hk ht12]
  | some st =>
    cases st with
    | COMPLETED => exact absurd hv hnc
    | PROCESSING =>
      have hv' : viewStatus { s with locks := (get_lock_key_for_event e, t1) :: s.locks } t1 e =
          some ProcessingStatus.PROCESSING := by
        rw [viewStatus_locks_update]
        exact hv
      rw [tryClaimLocked_processing _ t1 e n1 hv']
      refine ⟨rfl, ?_⟩
      have hk : tlookup ({ s with locks := (get_lock_key_for_event e, t1) :: s.locks } :
          DBState).locks (get_lock_key_for_event e) = some t1 := by
        simp [tlookup]
      rw [try_claim_event_contention _ t2 t1 e n2 hk ht12]

/-- Witness for the amended mutual exclusion on an empty store. -/
theorem mutual_exclusion_amended_witness :
    (1 : Nat) ≠ 0 ∧
    tlookup (DBState.mk [] [] []).locks (get_lock_key_for_event "E1") = none ∧
    viewStatus ⟨[], [], []⟩ 0 "E1" ≠ some ProcessingStatus.COMPLETED ∧
    (try_claim_event ⟨[], [], []⟩ 0 "E1" 1).2 = Except.ok () :=
  ⟨by decide, by decide, by decide,
   (mutual_exclusion_amended ⟨[], [], []⟩ 0 1 "E1" 1 2 (by decide) (by decide) (by decide)).1⟩

theorem try_claim_ok_of_not_completed (s : DBState) (t : Nat) (e : String) (now : Nat)
    (hfree : tlookup s.locks (get_lock_key_for_event e) = none)
    (hnc : viewStatus s t e ≠ some ProcessingStatus.COMPLETED) :
    (try_claim_event s t e now).2 = Except.ok () := by
  rw [try_claim_event_free s t e now hfree]
  cases hv : viewStatus s t e with
  | none =>
    rw [tryClaimLocked_absent _ t e now (by rw [viewStatus_locks_update]; exact hv)]
  | some st =>
    cases st with
    | COMPLETED => exact absurd hv hnc
    | PROCESSING =>
      rw [tryClaimLocked_processing _ t e now (by rw [viewStatus_locks_update]; exact hv)]

theorem try_claim_event_locks_free (s : DBState) (t : Nat) (e : String) (now : Nat)
    (hfree : tlookup s.locks (get_lock_key_for_event e) = none) :
    (try_claim_event s t e now).1.locks = (get_lock_key_for_event e, t) :: s.locks := by
  rw [try_claim_event_free s t e now hfree]
  cases hv : viewStatus { s with locks := (get_lock_key_for_event e, t) :: s.locks } t e with
  | none => rw [tryClaimLocked_absent _ t e now hv]; rfl
  | some st =>
    cases st with
    | COMPLETED => rw [tryClaimLocked_committed_done _ t e now hv]
    | PROCESSING => rw [tryClaimLocked_processing _ t e now hv]

theorem try_claim_event_pendingOps_ne (s : DBState) (t t2 : Nat) (e : String) (now : Nat)
    (h : t2 ≠ t) :
    pendingOps (try_claim_event s t e now).1 t2 = pendingOps s t2 := by
  have main : ∀ s'' : DBState, s''.pending = s.pending →
      pendingOps (tryClaimLocked s'' t e now).1 t2 = pendingOps s t2 := by
    intro s'' hp
    cases hv : viewStatus s'' t e with
    | none =>
      rw [tryClaimLocked_absent _ t e now hv]
      show pendingOps (appendOp s'' t _) t2 = _
      rw [pendingOps_appendOp_ne _ t t2 _ h]
      unfold pendingOps
      rw [hp]
    | some st =>
      cases st with
      | COMPLETED =>
        rw [tryClaimLocked_committed_done _ t e now hv]
        unfold pendingOps
        rw [hp]
      | PROCESSING =>
        rw [tryClaimLocked_processing _ t e now hv]
        unfold pendingOps
        rw [hp]
  cases hl : tlookup s.locks (get_lock_key_for_event e) with
  | none =>
    rw [try_claim_event_free s t e now hl]
    exact main _ rfl
  | some holder =>
    by_cases ht : holder = t
    · subst ht
      rw [try_claim_event_reentrant s holder e now hl]
      exact main s rfl
    · rw [try_claim_event_contention s t holder e now hl ht]

/-- C3: rollback releases the claim atomically.  If a fresh transaction
successfully claims an event and then rolls back without completing, the
resulting state is as if the claim never happened: the committed table is
unchanged, the advisory lock is free again and the transaction's pending
statements are gone, so a subsequent try_claim_event by any consumer
succeeds. -/
theorem rollback_releases_claim (s : DBState) (t t2 : Nat) (e : String) (n1 n2 : Nat)
    (hfree : tlookup s.locks (get_lock_key_for_event e) = none)
    (hpt : pendingOps s t = [])
    (hpt2 : pendingOps s t2 = [])
    (hnc : committedStatus s e ≠ some ProcessingStatus.COMPLETED) :
    (try_claim_event s t e n1).2 = Except.ok () ∧
    (rollbackTxn (try_claim_event s t e n1).1 t).committed = s.committed ∧
    lockHolder (rollbackTxn (try_claim_event s t e n1).1 t)
      (get_lock_key_for_event e) = none ∧
    pendingOps (rollbackTxn (try_claim_event s t e n1).1 t) t = [] ∧
    (try_claim_event (rollbackTxn (try_claim_event s t e n1).1 t) t2 e n2).2 =
      Except.ok () := by
  have hvs : viewStatus s t e = committedStatus s e := by
    unfold viewStatus committedStatus view
    rw [hpt]
    rfl
  have hnc' : viewStatus s t e ≠ some ProcessingStatus.COMPLETED := by
    rw [hvs]
    exact hnc
  have hcomm2 : (rollbackTxn (try_claim_event s t e n1).1 t).committed = s.committed := by
    show (try_claim_event s t e n1).1.committed = s.committed
    exact try_claim_event_committed s t e n1
  have hlock2 : lockHolder (rollbackTxn (try_claim_event s t e n1).1 t)
      (get_lock_key_for_event e) = none := by
    show tlookup (removeLocksOf (try_claim_event s t e n1).1.locks t) _ = none
    rw [try_claim_event_locks_free s t e n1 hfree, removeLocksOf_cons_self]
    exact tlookup_removeLocksOf_none s.locks _ t hfree
  have hpend2 : pendingOps (rollbackTxn (try_claim_event s t e n1).1 t) t = [] := by
    show (tlookup (tset (try_claim_event s t e n1).1.pending t []) t).getD [] = []
    rw [tlookup_tset_self]
    rfl
  have hpend2' : pendingOps (rollbackTxn (try_claim_event s t e n1).1 t) t2 = [] := by
    by_cases ht : t2 = t
    · rw [ht]
      exact hpend2
    · show (tlookup (tset (try_claim_event s t e n1).1.pending t []) t2).getD [] = []
      rw [tlookup_tset_ne _ t t2 _ ht]
      show pendingOps (try_claim_event s t e n1).1 t2 = []
      rw [try_claim_event_pendingOps_ne s t t2 e n1 ht]
      exact hpt2
  refine ⟨try_claim_ok_of_not_completed s t e n1 hfree hnc', hcomm2, hlock2, hpend2, ?_⟩
  apply try_claim_ok_of_not_completed _ t2 e n2 hlock2
  unfold viewStatus view
  rw [hpend2']
  show (tlookup (applyOps (rollbackTxn (try_claim_event s t e n1).1 t).committed []) e).map
      Row.status ≠ _
  rw [hcomm2]
  exact hnc

/-- Witness for rollback releasing the claim on an empty store. -/
theorem rollback_releases_claim_witness :
    tlookup (DBState.mk [] [] []).locks (get_lock_key_for_event "E1") = none ∧
    pendingOps ⟨[], [], []⟩ 0 = [] ∧
    pendingOps ⟨[], [], []⟩ 1 = [] ∧
    committedStatus ⟨[], [], []⟩ "E1" ≠ some ProcessingStatus.COMPLETED ∧
    (try_claim_event (rollbackTxn (try_claim_event ⟨[], [], []⟩ 0 "E1" 1).1 0) 1 "E1" 2).2 =
      Except.ok () :=
  ⟨by decide, by decide, by decide, by decide,
   (rollback_releases_claim ⟨[], [], []⟩ 0 1 "E1" 1 2
     (by decide) (by decide) (by decide) (by decide)).2.2.2.2⟩

/-- C2: completion finality.  If a transaction successfully claims an event,
marks it completed and commits, then after any further interleaved activity
whatsoever the committed status of the event is still COMPLETED, and any
transaction with no pending statements that calls try_claim_event while the
advisory lock is free fails with AlreadyCompletedError — the claim can never
succeed again. -/
theorem completion_finality (s : DBState) (t : Nat) (e : String) (n1 n2 n3 : Nat)
    (trace : List SysOp) (t2 : Nat) (s3 : DBState)
    (hok : (try_claim_event s t e n1).2 = Except.ok ())
    (hs3 : s3 = runOps (commitTxn
        (mark_as_completed (try_claim_event s t e n1).1 t e n2).1 t) trace)
    (hfree : lockHolder s3 (get_lock_key_for_event e) = none)
    (hp2 : pendingOps s3 t2 = []) :
    committedStatus s3 e = some ProcessingStatus.COMPLETED ∧
    (try_claim_event s3 t2 e n3).2 = Except.error ClaimError.alreadyCompleted := by
  have hpair : try_claim_event s t e n1 = ((try_claim_event s t e n1).1, Except.ok ()) := by
    rw [← hok]
  obtain ⟨r, hr⟩ := try_claim_ok_row_exists s _ t e n1 hpair
  have hcomm : committedStatus
      (commitTxn (mark_as_completed (try_claim_event s t e n1).1 t e n2).1 t) e =
      some ProcessingStatus.COMPLETED := by
    show committedStatus
      (commitTxn (appendOp (try_claim_event s t e n1).1 t (Op.setCompleted e n2)) t) e = _
    unfold committedStatus commitTxn
    rw [pendingOps_appendOp_self, applyOps_append_one]
    show (tlookup (updateCompleted (view (try_claim_event s t e n1).1 t) e n2) e).map
      Row.status = _
    rw [tlookup_updateCompleted_self, hr]
    rfl
  have hc3 : committedStatus s3 e = some ProcessingStatus.COMPLETED := by
    rw [hs3]
    exact runOps_preserves_completed trace _ e hcomm
  refine ⟨hc3, ?_⟩
  rw [try_claim_event_free s3 t2 e n3 hfree]
  have hv : viewStatus { s3 with locks := (get_lock_key_for_event e, t2) :: s3.locks } t2 e =
      some ProcessingStatus.COMPLETED := by
    rw [viewStatus_locks_update]
    unfold viewStatus view
    rw [hp2]
    exact hc3
  rw [tryClaimLocked_committed_done _ t2 e n3 hv]

/-- Witness for completion finality: transaction 0 claims, completes and
commits event E1 on an empty store; transaction 1 then finds it COMPLETED. -/
theorem completion_finality_witness :
    (try_claim_event ⟨[], [], []⟩ 0 "E1" 1).2 = Except.ok () ∧
    lockHolder (runOps (commitTxn
        (mark_as_completed (try_claim_event ⟨[], [], []⟩ 0 "E1" 1).1 0 "E1" 2).1 0) [])
      (get_lock_key_for_event "E1") = none ∧
    pendingOps (runOps (commitTxn
        (mark_as_completed (try_claim_event ⟨[], [], []⟩ 0 "E1" 1).1 0 "E1" 2).1 0) []) 1 = [] ∧
    committedStatus (runOps (commitTxn
        (mark_as_completed (try_claim_event ⟨[], [], []⟩ 0 "E1" 1).1 0 "E1" 2).1 0) []) "E1" =
      some ProcessingStatus.COMPLETED :=
  ⟨by decide, by decide, by decide,
   (completion_finality ⟨[], [], []⟩ 0 "E1" 1 2 3 [] 1 _
     (by decide) rfl (by decide) (by decide)).1⟩
